import Mathlib

/-!
Shallow embedding of the 3D Connect-Four board/game-state engine
(static/js/gameLogic.js, class ConnectFour3D) and proofs about it.

The board is a 4x4x4 lattice addressed by (depth, row, col); cells hold
0 (empty), 1 (player one) or -1 (player two).  JavaScript arrays of
numbers become Lean functions out of Fin 4; BigInt bitboards become Nat;
fallible operations return Option.
-/

namespace ConnectFour3D

/-- Cells hold 0 (empty), +1 (player one) or -1 (player two),
mirroring the tri-state number encoding of the source. -/
abbrev Cell := Int

/-- A board snapshot: cell at (depth, row, col), each axis 0..3.
Mirrors the nested 4x4x4 JavaScript array. -/
abbrev BoardState := Fin 4 → Fin 4 → Fin 4 → Cell

/-- All 64 lattice coordinates in the z-major, then y, then x order in
which state.flat(2) enumerates the nested array. -/
def coords : List (Fin 4 × Fin 4 × Fin 4) :=
  (List.finRange 4).flatMap fun z =>
    (List.finRange 4).flatMap fun y =>
      (List.finRange 4).map fun x => (z, y, x)

/-- The flattened cell list state.flat(2). -/
def allCells (s : BoardState) : List Cell :=
  coords.map fun t => s t.1 t.2.1 t.2.2

/-- getInitialState: the all-empty board. -/
def getInitialState : BoardState := fun _ _ _ => 0

/-- getNumPieces: number of non-empty cells
(state.flat(2).filter(p =≻ p !== 0).length). -/
def getNumPieces (s : BoardState) : Nat :=
  ((allCells s).filter fun p => p != 0).length

/-- Count of player-one cells inside getCurrentPlayer. -/
def numPlayer1Pieces (s : BoardState) : Nat :=
  ((allCells s).filter fun p => p == 1).length

/-- Count of player-two cells inside getCurrentPlayer. -/
def numPlayer2Pieces (s : BoardState) : Nat :=
  ((allCells s).filter fun p => p == -1).length

/-- getCurrentPlayer: player one moves when the two counts are equal,
otherwise player two. -/
def getCurrentPlayer (s : BoardState) : Cell :=
  if numPlayer1Pieces s = numPlayer2Pieces s then 1 else -1

/-- getValidMoves: one entry per column in y-major order over the
depth-0 layer, 1 when the top cell is empty, else 0. -/
def getValidMoves (s : BoardState) : List Nat :=
  (List.finRange 4).flatMap fun y =>
    (List.finRange 4).map fun x => if s 0 y x = 0 then 1 else 0

/-- The 13 direction vectors (dx, dy, dz) of _generateWinningPatterns. -/
def directions : List (Int × Int × Int) :=
  [(1, 0, 0), (0, 1, 0), (0, 0, 1),
   (1, 1, 0), (1, -1, 0), (1, 0, 1),
   (1, 0, -1), (0, 1, 1), (0, 1, -1),
   (1, 1, 1), (1, -1, 1), (1, 1, -1), (1, -1, -1)]

/-- In-bounds test on the line end point (x+3dx, y+3dy, z+3dz). -/
def lineFits (z y x dx dy dz : Int) : Bool :=
  let endX := x + 3 * dx
  let endY := y + 3 * dy
  let endZ := z + 3 * dz
  0 ≤ endX && endX < 4 && 0 ≤ endY && endY < 4 && 0 ≤ endZ && endZ < 4

/-- The 4-cell bitmask of the line from (z, y, x) along (dx, dy, dz):
bit nz*16 + ny*4 + nx for each of the four cells. -/
def lineMask (z y x dx dy dz : Int) : Nat :=
  (List.range 4).foldl
    (fun mask i =>
      let nx := x + (i : Int) * dx
      let ny := y + (i : Int) * dy
      let nz := z + (i : Int) * dz
      mask ||| (1 <<< (nz * 16 + ny * 4 + nx).toNat))
    0

/-- The lattice coordinate values 0..3 iterated by the generator loops. -/
def coordRange : List Int := [0, 1, 2, 3]

/-- The line masks in generation order, before Set de-duplication. -/
def rawWinningPatterns : List Nat :=
  coordRange.flatMap fun z =>
    coordRange.flatMap fun y =>
      coordRange.flatMap fun x =>
        (directions.filter fun d => lineFits z y x d.1 d.2.1 d.2.2).map fun d =>
          lineMask z y x d.1 d.2.1 d.2.2

/-- _generateWinningPatterns: the de-duplicated winning-pattern table. -/
def _generateWinningPatterns : List Nat := rawWinningPatterns.dedup

/-- The table built once by the constructor. -/
def _winningPatterns : List Nat := _generateWinningPatterns

/-- _createBitboard: bit z*16 + y*4 + x for each cell holding player. -/
def _createBitboard (s : BoardState) (player : Cell) : Nat :=
  coords.foldl
    (fun bb t =>
      if s t.1 t.2.1 t.2.2 = player then
        bb ||| (1 <<< ((t.1 : Nat) * 16 + (t.2.1 : Nat) * 4 + (t.2.2 : Nat)))
      else bb)
    0

/-- _createBitboardFlipped: bit (3-z)*16 + y*4 + x for each cell holding
player; used only by the hex serialization. -/
def _createBitboardFlipped (s : BoardState) (player : Cell) : Nat :=
  coords.foldl
    (fun bb t =>
      if s t.1 t.2.1 t.2.2 = player then
        bb ||| (1 <<< ((3 - (t.1 : Nat)) * 16 + (t.2.1 : Nat) * 4 + (t.2.2 : Nat)))
      else bb)
    0

/-- checkWin: some pattern is fully contained in the bitboard of the
player who moved last. -/
def checkWin (s : BoardState) : Bool :=
  let lastPlayer := -(getCurrentPlayer s)
  let playerBitboard := _createBitboard s lastPlayer
  _winningPatterns.any fun p => playerBitboard &&& p == p

/-- checkGameOver: some pattern is fully contained in either player's
bitboard, or the board holds 64 pieces. -/
def checkGameOver (s : BoardState) : Bool :=
  let lastPlayerBitboard := _createBitboard s (-(getCurrentPlayer s))
  let currentPlayerBitboard := _createBitboard s (getCurrentPlayer s)
  (_winningPatterns.any fun p =>
    lastPlayerBitboard &&& p == p || currentPlayerBitboard &&& p == p)
  || getNumPieces s == 64

/-- getValueAndTerminated: (-1, true) when checkGameOver fires, (0, true)
when every entry of getValidMoves is 0, else (0, false). -/
def getValueAndTerminated (s : BoardState) : Int × Bool :=
  if checkGameOver s then (-1, true)
  else if (getValidMoves s).all fun m => m == 0 then (0, true)
  else (0, false)

/-- _actionToCoords: row = action / 4, col = action mod 4 for an action
in 0..15; the thrown range error is modelled as none. -/
def _actionToCoords (action : Int) : Option (Fin 4 × Fin 4) :=
  if h : 0 ≤ action ∧ action < 16 then
    some (⟨action.toNat / 4, by omega⟩, ⟨action.toNat % 4, by omega⟩)
  else none

/-- The depth scan of getNextState: first empty slot looking from
depth 3 down to depth 0. -/
def dropDepth (s : BoardState) (r c : Fin 4) : Option (Fin 4) :=
  ([3, 2, 1, 0] : List (Fin 4)).find? fun d => s d r c == 0

/-- The single-cell write of getNextState. -/
def pointUpdate (s : BoardState) (d r c : Fin 4) (v : Cell) : BoardState :=
  fun z y x => if z = d ∧ y = r ∧ x = c then v else s z y x

/-- Body of getNextState once the coordinates are known: place the
current player's piece at the drop depth, or return the state unchanged
when the column is full. -/
def getNextStateCore (s : BoardState) (r c : Fin 4) : BoardState :=
  match dropDepth s r c with
  | some d => pointUpdate s d r c (getCurrentPlayer s)
  | none => s

/-- getNextState: deep-copy-and-place; none models the range error
thrown by _actionToCoords. -/
def getNextState (s : BoardState) (action : Int) : Option BoardState :=
  (_actionToCoords action).map fun rc => getNextStateCore s rc.1 rc.2

/-- Loop body of getStateFromMoves, carrying the applied moves so far. -/
def getStateFromMovesAux (s : BoardState) (acc : List Int) :
    List Int → BoardState × List Int
  | [] => (s, acc)
  | a :: rest =>
    if 0 ≤ a ∧ a < 16 then
      if (getValidMoves s).getD a.toNat 0 = 0 then (s, acc)
      else
        match getNextState s a with
        | some s' =>
          if checkGameOver s' then (s', acc ++ [a])
          else getStateFromMovesAux s' (acc ++ [a]) rest
        | none => (s, acc)
    else (s, acc)

/-- getStateFromMoves: replay from the initial state, returning the
final state and the list of moves actually applied. -/
def getStateFromMoves (moves : List Int) : BoardState × List Int :=
  getStateFromMovesAux getInitialState [] moves

/-- getLandingPosition: none for an out-of-range action or a full
column, else the (depth, row, col) slot a dropped piece would fill. -/
def getLandingPosition (s : BoardState) (action : Int) :
    Option (Fin 4 × Fin 4 × Fin 4) :=
  if ¬(0 ≤ action ∧ action < 16) ∨ (getValidMoves s).getD action.toNat 0 = 0 then
    none
  else
    match _actionToCoords action with
    | some (r, c) => (dropDepth s r c).map fun d => (d, r, c)
    | none => none

/-- Hexadecimal digit characters as produced by BigInt.toString(16):
0-9 then lowercase a-f. -/
def hexDigitChar (d : Nat) : Char :=
  if d < 10 then Char.ofNat (48 + d) else Char.ofNat (87 + d)

/-- Digit expansion of BigInt.toString(16) for a positive argument,
most significant digit first (empty for 0). -/
def natToHexAux (n : Nat) : List Char :=
  if h : n = 0 then []
  else natToHexAux (n / 16) ++ [hexDigitChar (n % 16)]
termination_by n
decreasing_by exact Nat.div_lt_self (Nat.pos_of_ne_zero h) (by norm_num)

/-- BigInt.toString(16): lowercase hex digits, no leading zeros,
the single digit 0 for zero. -/
def natToHex (n : Nat) : List Char :=
  if n = 0 then ['0'] else natToHexAux n

/-- padStart(16, '0') on a digit string. -/
def padStart16 (l : List Char) : List Char :=
  List.replicate (16 - l.length) '0' ++ l

/-- getStateHexCode: the two padded 16-digit bitboard encodings joined
by one space, player one first. -/
def getStateHexCode (s : BoardState) : String :=
  String.mk (padStart16 (natToHex (_createBitboardFlipped s 1)))
    ++ " "
    ++ String.mk (padStart16 (natToHex (_createBitboardFlipped s (-1))))

/-! ## Auxiliary definitions used by the statements -/

/-- Number of set bits of a 64-bit mask: the count of bit positions
0..63 whose bit is set. -/
def popCount (m : Nat) : Nat :=
  ((List.range 64).filter fun i => m.testBit i).length

/-- Value of one hexadecimal digit character. -/
def hexDigitVal (ch : Char) : Nat :=
  if 97 ≤ ch.toNat then ch.toNat - 87 else ch.toNat - 48

/-- Numeric value of a big-endian string of hexadecimal digits. -/
def hexVal (l : List Char) : Nat :=
  l.foldl (fun acc ch => 16 * acc + hexDigitVal ch) 0

/-- The sixteen lowercase hexadecimal digit characters 0-9 and a-f. -/
def hexChars : List Char := (List.range 16).map hexDigitChar

/-- The gravity invariant: in every column the empty cells form a
contiguous run starting at depth 0, i.e. every cell at a depth index
at most that of an empty cell is itself empty. -/
def Gravity (s : BoardState) : Prop :=
  ∀ (r c d d' : Fin 4), d' ≤ d → s d r c = 0 → s d' r c = 0

/-- States reachable from the initial empty board by applying in-range
actions on columns that still have an empty cell. -/
inductive Reachable : BoardState → Prop where
  | init : Reachable getInitialState
  | step {s s' : BoardState} {a : Int} {r c : Fin 4} :
      Reachable s →
      _actionToCoords a = some (r, c) →
      (∃ d : Fin 4, s d r c = 0) →
      getNextState s a = some s' →
      Reachable s'

/-- The replay loop exactly as the specification words it (spec 4.6):
apply the moves strictly left to right; stop at the first action that
is out of range or whose column is already full (no empty cell at any
depth); stop as soon as the state just produced is terminal; return the
state built so far together with the moves actually applied. -/
def replaySpecAux (s : BoardState) : List Int → BoardState × List Int
  | [] => (s, [])
  | a :: rest =>
    match _actionToCoords a with
    | none => (s, [])
    | some (r, c) =>
      if ∀ d : Fin 4, s d r c ≠ 0 then (s, [])
      else
        if (getValueAndTerminated (getNextStateCore s r c)).2 then
          (getNextStateCore s r c, [a])
        else
          ((replaySpecAux (getNextStateCore s r c) rest).1,
            a :: (replaySpecAux (getNextStateCore s r c) rest).2)

/-- Spec-side replay from the initial state. -/
def replaySpec (moves : List Int) : BoardState × List Int :=
  replaySpecAux getInitialState moves

/-- Cell values of a completely full board with no four-in-a-row line
for either player, listed in position order z*16 + y*4 + x (found by
exhaustive check against the winning-pattern table). -/
def drawBoardList : List Int :=
  [-1, -1, 1, -1, -1, -1, 1, -1, 1, -1, -1, -1, -1, 1, 1, 1,
   1, 1, -1, 1, -1, 1, -1, 1, 1, -1, -1, -1, -1, 1, 1, 1,
   1, 1, -1, -1, 1, 1, -1, 1, 1, 1, -1, 1, -1, -1, 1, 1,
   -1, -1, -1, 1, 1, -1, -1, 1, -1, 1, 1, 1, 1, -1, -1, -1]

/-- The full no-win board as a BoardState. -/
def drawBoard : BoardState :=
  fun z y x => drawBoardList.getD (16 * (z : Nat) + 4 * (y : Nat) + (x : Nat)) 0

/-- A board where player one holds the whole depth-3 row 0: a completed
axis line. -/
def winBoard : BoardState :=
  fun z y x => if z = 3 ∧ y = 0 then (if (x : Nat) = 0 then 1 else 1) else 0

/-- A board whose column (row 0, col 0) is completely full, with
alternating pieces so no line is complete. -/
def colFullBoard : BoardState :=
  fun z y x => if y = 0 ∧ x = 0 then (if (z : Nat) % 2 = 0 then 1 else -1) else 0

/-- The state after dropping one piece into column 0 of the empty
board. -/
def board1 : BoardState := getNextStateCore getInitialState 0 0

/-! ## Basic lemmas about the primitive operations -/

/-- Every lattice coordinate occurs exactly once in the flattening
order. -/
lemma coords_count : ∀ t : Fin 4 × Fin 4 × Fin 4, coords.count t = 1 := by decide

/-- The current player is never the empty-cell marker. -/
lemma getCurrentPlayer_ne_zero (s : BoardState) : getCurrentPlayer s ≠ 0 := by
  unfold getCurrentPlayer
  split <;> norm_num

/-- Unfolding of a successful coordinate conversion. -/
lemma actionToCoords_spec (a : Int) (r c : Fin 4)
    (h : _actionToCoords a = some (r, c)) :
    0 ≤ a ∧ a < 16 ∧ a.toNat = 4 * (r : Nat) + (c : Nat) := by
  unfold _actionToCoords at h
  split at h
  · next hrange =>
    simp only [Option.some.injEq, Prod.mk.injEq] at h
    obtain ⟨hr, hc⟩ := h
    have hrv : (r : Nat) = a.toNat / 4 := by rw [← hr]
    have hcv : (c : Nat) = a.toNat % 4 := by rw [← hc]
    exact ⟨hrange.1, hrange.2, by omega⟩
  · exact absurd h (by simp)

/-- An in-range action always converts. -/
lemma actionToCoords_isSome (a : Int) (h : 0 ≤ a ∧ a < 16) :
    ∃ r c : Fin 4, _actionToCoords a = some (r, c) := by
  unfold _actionToCoords
  rw [dif_pos h]
  exact ⟨_, _, rfl⟩

/-- An out-of-range action never converts. -/
lemma actionToCoords_none (a : Int) (h : ¬(0 ≤ a ∧ a < 16)) :
    _actionToCoords a = none := by
  unfold _actionToCoords
  rw [dif_neg h]

/-- The valid-move entry of a column is 1 or 0 as its top cell is empty
or not. -/
lemma getValidMoves_getD (s : BoardState) (r c : Fin 4) :
    (getValidMoves s).getD (4 * (r : Nat) + (c : Nat)) 0
      = if s 0 r c = 0 then 1 else 0 := by
  fin_cases r <;> fin_cases c <;> rfl

/-- Full case analysis of the bottom-up depth scan: it either reports
the column full, or returns the deepest empty slot. -/
lemma dropDepth_cases (s : BoardState) (r c : Fin 4) :
    (dropDepth s r c = none ∧ ∀ d : Fin 4, s d r c ≠ 0) ∨
    (∃ d₀ : Fin 4, dropDepth s r c = some d₀ ∧ s d₀ r c = 0 ∧
      ∀ d : Fin 4, d₀ < d → s d r c ≠ 0) := by
  by_cases h3 : s 3 r c = 0
  · right
    refine ⟨3, ?_, h3, ?_⟩
    · have b3 : (s 3 r c == 0) = true := by simpa using h3
      simp [dropDepth, List.find?, b3]
    · intro d hd
      exfalso
      rw [Fin.lt_def] at hd
      have hv : ((3 : Fin 4) : Nat) = 3 := rfl
      have hlt := d.isLt
      omega
  · have b3 : (s 3 r c == 0) = false := by simpa using h3
    by_cases h2 : s 2 r c = 0
    · right
      refine ⟨2, ?_, h2, ?_⟩
      · have b2 : (s 2 r c == 0) = true := by simpa using h2
        simp [dropDepth, List.find?, b3, b2]
      · intro d hd
        fin_cases d
        · exact absurd hd (by decide)
        · exact absurd hd (by decide)
        · exact absurd hd (by decide)
        · exact h3
    · have b2 : (s 2 r c == 0) = false := by simpa using h2
      by_cases h1 : s 1 r c = 0
      · right
        refine ⟨1, ?_, h1, ?_⟩
        · have b1 : (s 1 r c == 0) = true := by simpa using h1
          simp [dropDepth, List.find?, b3, b2, b1]
        · intro d hd
          fin_cases d
          · exact absurd hd (by decide)
          · exact absurd hd (by decide)
          · exact h2
          · exact h3
      · have b1 : (s 1 r c == 0) = false := by simpa using h1
        by_cases h0 : s 0 r c = 0
        · right
          refine ⟨0, ?_, h0, ?_⟩
          · have b0 : (s 0 r c == 0) = true := by simpa using h0
            simp [dropDepth, List.find?, b3, b2, b1, b0]
          · intro d hd
            fin_cases d
            · exact absurd hd (by decide)
            · exact h1
            · exact h2
            · exact h3
        · left
          have b0 : (s 0 r c == 0) = false := by simpa using h0
          constructor
          · simp [dropDepth, List.find?, b3, b2, b1, b0]
          · intro d
            fin_cases d
            · exact h0
            · exact h1
            · exact h2
            · exact h3

/-- The depth scan fails exactly on a full column. -/
lemma dropDepth_eq_none (s : BoardState) (r c : Fin 4)
    (hfull : ∀ d : Fin 4, s d r c ≠ 0) :
    dropDepth s r c = none := by
  rcases dropDepth_cases s r c with ⟨hn, _⟩ | ⟨d₀, _, hemp, _⟩
  · exact hn
  · exact absurd hemp (hfull d₀)

/-- A successful coordinate conversion turns getNextState into
getNextStateCore. -/
lemma getNextState_eq_core (s : BoardState) (a : Int) (r c : Fin 4)
    (hcoords : _actionToCoords a = some (r, c)) :
    getNextState s a = some (getNextStateCore s r c) := by
  unfold getNextState
  rw [hcoords]
  rfl

/-! ## Counting lemmas -/

/-- Counting over a map after changing the function at one element that
occurs exactly once: only that element's contribution moves. -/
lemma countP_map_single_diff {α β : Type} [BEq α] [LawfulBEq α] (p : β → Bool)
    (f g : α → β) :
    ∀ (l : List α) (a : α), l.count a = 1 →
      (∀ b ∈ l, b ≠ a → f b = g b) →
      (l.map g).countP p + (if p (f a) then 1 else 0)
        = (l.map f).countP p + (if p (g a) then 1 else 0) := by
  intro l
  induction l with
  | nil =>
    intro a h _
    simp at h
  | cons x xs ih =>
    intro a hcount hagree
    by_cases hxa : x = a
    · subst hxa
      have hzero : xs.count x = 0 := by
        rw [List.count_cons_self] at hcount
        omega
      have hnotmem : x ∉ xs := by
        intro hmem
        exact absurd hzero (by simpa [List.count_eq_zero] using hmem)
      have hmapeq : xs.map f = xs.map g := by
        apply List.map_congr_left
        intro b hb
        exact hagree b (List.mem_cons_of_mem x hb) (fun hba => hnotmem (hba ▸ hb))
      simp only [List.map_cons, List.countP_cons, hmapeq]
      omega
    · have hcount' : xs.count a = 1 := by
        rw [List.count_cons_of_ne (by simpa using (Ne.symm hxa))] at hcount
        exact hcount
      have hfx : f x = g x := hagree x (List.mem_cons_self x xs) hxa
      have := ih a hcount' (fun b hb hba => hagree b (List.mem_cons_of_mem x hb) hba)
      simp only [List.map_cons, List.countP_cons, hfx]
      omega

/-- Cell counts before and after a single-cell write. -/
lemma countP_pointUpdate (s : BoardState) (d r c : Fin 4) (v : Cell)
    (p : Cell → Bool) :
    (allCells (pointUpdate s d r c v)).countP p + (if p (s d r c) then 1 else 0)
      = (allCells s).countP p + (if p v then 1 else 0) := by
  have hagree : ∀ b ∈ coords, b ≠ (d, r, c) →
      (fun t : Fin 4 × Fin 4 × Fin 4 => s t.1 t.2.1 t.2.2) b
        = (fun t : Fin 4 × Fin 4 × Fin 4 =>
            pointUpdate s d r c v t.1 t.2.1 t.2.2) b := by
    intro b _ hbne
    have hcond : ¬(b.1 = d ∧ b.2.1 = r ∧ b.2.2 = c) := by
      rintro ⟨e1, e2, e3⟩
      exact hbne (by
        obtain ⟨b1, b2, b3⟩ := b
        simp only at e1 e2 e3
        rw [e1, e2, e3])
    simp only [pointUpdate, if_neg hcond]
  have hkey := countP_map_single_diff p
    (fun t : Fin 4 × Fin 4 × Fin 4 => s t.1 t.2.1 t.2.2)
    (fun t : Fin 4 × Fin 4 × Fin 4 => pointUpdate s d r c v t.1 t.2.1 t.2.2)
    coords (d, r, c) (coords_count _) hagree
  have hg : pointUpdate s d r c v d r c = v := by
    simp [pointUpdate]
  simpa [allCells, hg] using hkey

/-- The two player counts expressed with countP. -/
lemma numPlayer1Pieces_eq_countP (s : BoardState) :
    numPlayer1Pieces s = (allCells s).countP fun p => p == 1 := by
  rw [numPlayer1Pieces, List.countP_eq_length_filter]

/-- The two player counts expressed with countP. -/
lemma numPlayer2Pieces_eq_countP (s : BoardState) :
    numPlayer2Pieces s = (allCells s).countP fun p => p == -1 := by
  rw [numPlayer2Pieces, List.countP_eq_length_filter]

/-- Placing a player-one piece on an empty cell raises the player-one
count by one and leaves the player-two count unchanged; symmetrically
for player two. -/
lemma pieces_after_pointUpdate (s : BoardState) (d r c : Fin 4) (v : Cell)
    (hempty : s d r c = 0) :
    (v = 1 → numPlayer1Pieces (pointUpdate s d r c v) = numPlayer1Pieces s + 1 ∧
              numPlayer2Pieces (pointUpdate s d r c v) = numPlayer2Pieces s) ∧
    (v = -1 → numPlayer1Pieces (pointUpdate s d r c v) = numPlayer1Pieces s ∧
              numPlayer2Pieces (pointUpdate s d r c v) = numPlayer2Pieces s + 1) := by
  have h1 := countP_pointUpdate s d r c v fun p => p == 1
  have h2 := countP_pointUpdate s d r c v fun p => p == -1
  rw [hempty] at h1 h2
  constructor
  · intro hv
    subst hv
    simp only [numPlayer1Pieces_eq_countP, numPlayer2Pieces_eq_countP]
    norm_num at h1 h2
    omega
  · intro hv
    subst hv
    simp only [numPlayer1Pieces_eq_countP, numPlayer2Pieces_eq_countP]
    norm_num at h1 h2
    omega

/-! ## Claim theorems -/

/-- Claim C2: whenever some mask of the winning-pattern table is fully
contained in the bitboard of the player who just moved (the negation of
the current player) or of the player to move next, getValueAndTerminated
returns value -1 and isTerminal true. -/
theorem c2_win_gives_minus_one (s : BoardState)
    (hwin : ∃ p ∈ _winningPatterns,
      _createBitboard s (-(getCurrentPlayer s)) &&& p = p ∨
      _createBitboard s (getCurrentPlayer s) &&& p = p) :
    getValueAndTerminated s = (-1, true) := by
  obtain ⟨p, hp, hcase⟩ := hwin
  have hgo : checkGameOver s = true := by
    unfold checkGameOver
    simp only [Bool.or_eq_true, List.any_eq_true]
    left
    refine ⟨p, hp, ?_⟩
    rcases hcase with h | h <;> simp [h]
  unfold getValueAndTerminated
  rw [if_pos hgo]

/-- Witness for C2 at a concrete winning position: player one holds the
whole depth-3 row 0 of winBoard. -/
theorem c2_win_gives_minus_one_witness :
    getValueAndTerminated winBoard = (-1, true) :=
  c2_win_gives_minus_one winBoard (by decide)

/-- Claim C9: applying an in-range action to a full column is a no-op
returning the input state itself. -/
theorem c9_full_column_noop (s : BoardState) (a : Int) (r c : Fin 4)
    (hcoords : _actionToCoords a = some (r, c))
    (hfull : ∀ d : Fin 4, s d r c ≠ 0) :
    getNextState s a = some s := by
  rw [getNextState_eq_core s a r c hcoords]
  unfold getNextStateCore
  rw [dropDepth_eq_none s r c hfull]

/-- Witness for C9 at a concrete full column: column (0,0) of
colFullBoard is completely occupied. -/
theorem c9_full_column_noop_witness :
    getNextState colFullBoard 0 = some colFullBoard :=
  c9_full_column_noop colFullBoard 0 0 0 (by decide) (by decide)

/-- Claim C4: applying an in-range action to a column with an empty cell
places the current player's piece at the largest empty depth of that
column and changes no other cell. -/
theorem c4_apply_move (s : BoardState) (a : Int) (r c : Fin 4)
    (hcoords : _actionToCoords a = some (r, c))
    (hempty : ∃ d : Fin 4, s d r c = 0) :
    ∃ d₀ : Fin 4, s d₀ r c = 0 ∧ (∀ d : Fin 4, d₀ < d → s d r c ≠ 0) ∧
      getNextState s a = some (pointUpdate s d₀ r c (getCurrentPlayer s)) ∧
      pointUpdate s d₀ r c (getCurrentPlayer s) d₀ r c = getCurrentPlayer s ∧
      ∀ z y x : Fin 4, ¬(z = d₀ ∧ y = r ∧ x = c) →
        pointUpdate s d₀ r c (getCurrentPlayer s) z y x = s z y x := by
  rcases dropDepth_cases s r c with ⟨_, hall⟩ | ⟨d₀, hfind, hemp, hmax⟩
  · obtain ⟨d, hd⟩ := hempty
    exact absurd hd (hall d)
  · refine ⟨d₀, hemp, hmax, ?_, ?_, ?_⟩
    · rw [getNextState_eq_core s a r c hcoords]
      unfold getNextStateCore
      rw [hfind]
    · simp [pointUpdate]
    · intro z y x hne
      simp only [pointUpdate, if_neg hne]

/-- Witness for C4: dropping into column 5 of the empty board. -/
theorem c4_apply_move_witness :
    ∃ d₀ : Fin 4, getInitialState d₀ 1 1 = 0 ∧
      (∀ d : Fin 4, d₀ < d → getInitialState d 1 1 ≠ 0) ∧
      getNextState getInitialState 5
        = some (pointUpdate getInitialState d₀ 1 1 (getCurrentPlayer getInitialState)) ∧
      pointUpdate getInitialState d₀ 1 1 (getCurrentPlayer getInitialState) d₀ 1 1
        = getCurrentPlayer getInitialState ∧
      ∀ z y x : Fin 4, ¬(z = d₀ ∧ y = 1 ∧ x = 1) →
        pointUpdate getInitialState d₀ 1 1 (getCurrentPlayer getInitialState) z y x
          = getInitialState z y x :=
  c4_apply_move getInitialState 5 1 1 (by decide) ⟨3, rfl⟩

/-- Claim C10: on a board satisfying the alternation invariant, a
successful move flips the side to move. -/
theorem c10_move_flips_player (s : BoardState) (a : Int) (r c : Fin 4)
    (hcoords : _actionToCoords a = some (r, c))
    (hempty : ∃ d : Fin 4, s d r c = 0)
    (halt : numPlayer1Pieces s = numPlayer2Pieces s ∨
            numPlayer1Pieces s = numPlayer2Pieces s + 1) :
    getNextState s a = some (getNextStateCore s r c) ∧
    getCurrentPlayer (getNextStateCore s r c) = -(getCurrentPlayer s) := by
  refine ⟨getNextState_eq_core s a r c hcoords, ?_⟩
  rcases dropDepth_cases s r c with ⟨_, hall⟩ | ⟨d₀, hfind, hemp, _⟩
  · obtain ⟨d, hd⟩ := hempty
    exact absurd hd (hall d)
  · have hcore : getNextStateCore s r c
        = pointUpdate s d₀ r c (getCurrentPlayer s) := by
      unfold getNextStateCore
      rw [hfind]
    rw [hcore]
    by_cases heq : numPlayer1Pieces s = numPlayer2Pieces s
    · have hcp : getCurrentPlayer s = 1 := by
        unfold getCurrentPlayer
        rw [if_pos heq]
      have hcounts :=
        ((pieces_after_pointUpdate s d₀ r c (getCurrentPlayer s) hemp).1 hcp)
      rw [hcp] at hcounts ⊢
      unfold getCurrentPlayer
      rw [if_neg (by omega)]
    · have hcp : getCurrentPlayer s = -1 := by
        unfold getCurrentPlayer
        rw [if_neg heq]
      have hone : numPlayer1Pieces s = numPlayer2Pieces s + 1 := by
        rcases halt with h | h
        · exact absurd h heq
        · exact h
      have hcounts :=
        ((pieces_after_pointUpdate s d₀ r c (getCurrentPlayer s) hemp).2 hcp)
      rw [hcp] at hcounts ⊢
      unfold getCurrentPlayer
      rw [if_pos (by omega)]
      norm_num

/-- Witness for C10: the first move on the empty board hands the turn
from player one to player two. -/
theorem c10_move_flips_player_witness :
    getNextState getInitialState 0 = some (getNextStateCore getInitialState 0 0) ∧
    getCurrentPlayer (getNextStateCore getInitialState 0 0)
      = -(getCurrentPlayer getInitialState) :=
  c10_move_flips_player getInitialState 0 0 0 (by decide) ⟨3, rfl⟩
    (Or.inl (by decide))

set_option maxHeartbeats 4000000 in
/-- Claim C1 (code bug): drawBoard is completely full and neither
player's bitboard contains any winning mask, yet getValueAndTerminated
returns value -1 instead of the draw value 0 claimed by the
specification, because checkGameOver already reports a full board. -/
theorem c1_full_draw_evaluates_to_minus_one :
    (∀ z y x : Fin 4, drawBoard z y x ≠ 0) ∧
    (∀ p ∈ _winningPatterns,
      ¬(_createBitboard drawBoard 1 &&& p = p) ∧
      ¬(_createBitboard drawBoard (-1) &&& p = p)) ∧
    checkGameOver drawBoard = true ∧
    getValueAndTerminated drawBoard = (-1, true) := by
  have hnowin : (_winningPatterns.all fun p =>
      !(_createBitboard drawBoard 1 &&& p == p) &&
      !(_createBitboard drawBoard (-1) &&& p == p)) = true := by decide
  have hgo : checkGameOver drawBoard = true := by decide
  refine ⟨by decide, ?_, hgo, ?_⟩
  · intro p hp
    have hb := List.all_eq_true.mp hnowin p hp
    simp only [Bool.and_eq_true, Bool.not_eq_true', beq_eq_false_iff_ne] at hb
    exact hb
  · unfold getValueAndTerminated
    rw [if_pos hgo]

set_option maxHeartbeats 4000000 in
/-- Claim C3: the winning-pattern table holds exactly 76 distinct
masks, each with exactly 4 set bits, and each the mask of a straight
in-bounds line of four lattice cells. -/
theorem c3_winning_pattern_table :
    _winningPatterns.length = 76 ∧ _winningPatterns.Nodup ∧
    ∀ m ∈ _winningPatterns, popCount m = 4 ∧
      ∃ z ∈ coordRange, ∃ y ∈ coordRange, ∃ x ∈ coordRange,
        ∃ d ∈ directions, lineFits z y x d.1 d.2.1 d.2.2 = true ∧
          m = lineMask z y x d.1 d.2.1 d.2.2 := by
  have hpop : rawWinningPatterns.all (fun m => popCount m == 4) = true := by
    decide
  have huneq : _winningPatterns = rawWinningPatterns.dedup := rfl
  have hnodup : _winningPatterns.Nodup := by
    rw [huneq]
    exact List.nodup_dedup rawWinningPatterns
  refine ⟨by decide, hnodup, ?_⟩
  intro m hm
  rw [huneq] at hm
  have hraw : m ∈ rawWinningPatterns := List.dedup_subset rawWinningPatterns hm
  refine ⟨by simpa using List.all_eq_true.mp hpop m hraw, ?_⟩
  rcases List.mem_flatMap.mp hraw with ⟨z, hz, h2⟩
  rcases List.mem_flatMap.mp h2 with ⟨y, hy, h3⟩
  rcases List.mem_flatMap.mp h3 with ⟨x, hx, h4⟩
  rcases List.mem_map.mp h4 with ⟨d, hd, hmask⟩
  rcases List.mem_filter.mp hd with ⟨hdin, hfits⟩
  exact ⟨z, hz, y, hy, x, hx, d, hdin, hfits, hmask.symm⟩

/-! ## The gravity invariant -/

/-- One application of the move primitive preserves the gravity
invariant: the piece lands on the deepest empty slot, so the empty
cells of the column remain a contiguous run starting at depth 0. -/
lemma gravity_core (s : BoardState) (r c : Fin 4) (h : Gravity s) :
    Gravity (getNextStateCore s r c) := by
  rcases dropDepth_cases s r c with ⟨hnone, _⟩ | ⟨d₀, hfind, hemp, hmax⟩
  · unfold getNextStateCore
    rw [hnone]
    exact h
  · have hcore_eq : getNextStateCore s r c
        = pointUpdate s d₀ r c (getCurrentPlayer s) := by
      unfold getNextStateCore
      rw [hfind]
    rw [hcore_eq]
    intro r' c' d d' hle hzero
    have hvne := getCurrentPlayer_ne_zero s
    have hdne : ¬(d = d₀ ∧ r' = r ∧ c' = c) := by
      rintro ⟨e1, e2, e3⟩
      have hv : pointUpdate s d₀ r c (getCurrentPlayer s) d r' c'
          = getCurrentPlayer s := by
        unfold pointUpdate
        rw [if_pos ⟨e1, e2, e3⟩]
      rw [hv] at hzero
      exact hvne hzero
    have hs : s d r' c' = 0 := by
      have hz' := hzero
      unfold pointUpdate at hz'
      rwa [if_neg hdne] at hz'
    have hs' : s d' r' c' = 0 := h r' c' d d' hle hs
    show pointUpdate s d₀ r c (getCurrentPlayer s) d' r' c' = 0
    by_cases hd' : d' = d₀ ∧ r' = r ∧ c' = c
    · exfalso
      obtain ⟨e1, e2, e3⟩ := hd'
      rw [e2, e3] at hs
      rcases lt_or_eq_of_le (e1 ▸ hle : d₀ ≤ d) with hlt | heq2
      · exact hmax d hlt hs
      · exact hdne ⟨heq2.symm, e2, e3⟩
    · unfold pointUpdate
      rw [if_neg hd']
      exact hs'

/-- Claim C8 (amended): every state reachable by valid moves satisfies
the gravity invariant — in every column the empty cells form a
contiguous run starting at depth 0 (equivalently, no occupied cell has
an empty cell at a larger depth index in the same column). -/
theorem c8_gravity_invariant (s : BoardState) (h : Reachable s) : Gravity s := by
  induction h with
  | init =>
    intro r c d d' _ _
    rfl
  | step hR hcoords hempty hstep ih =>
    rename_i s₀ s' a r c
    have hcore : s' = getNextStateCore s₀ r c := by
      rw [getNextState_eq_core s₀ a r c hcoords] at hstep
      exact (Option.some.inj hstep).symm
    rw [hcore]
    exact gravity_core s₀ r c ih

/-- Witness for C8: the gravity invariant at the reachable one-piece
state board1. -/
theorem c8_gravity_invariant_witness : Gravity board1 :=
  c8_gravity_invariant board1
    (Reachable.step Reachable.init
      (show _actionToCoords 0 = some (0, 0) by decide)
      ⟨3, rfl⟩
      (show getNextState getInitialState 0 = some board1 from rfl))

/-- Counterexample to C8 as literally stated: board1 is reachable with
one valid move, its cell at depth 0 of column (0,0) is empty, and the
cell at the larger depth index 3 of the same column is occupied — an
empty cell does have an occupied cell at a larger depth index. -/
theorem c8_counterexample :
    Reachable board1 ∧ board1 0 0 0 = 0 ∧ (0 : Fin 4) < 3 ∧ board1 3 0 0 ≠ 0 := by
  refine ⟨Reachable.step Reachable.init
      (show _actionToCoords 0 = some (0, 0) by decide)
      ⟨3, rfl⟩
      (show getNextState getInitialState 0 = some board1 from rfl),
    by decide, by decide, by decide⟩

/-! ## Replay -/

/-- When every valid-move entry is 0, every top-layer cell is
occupied. -/
lemma top_occupied_of_all_zero (s : BoardState)
    (hall : ((getValidMoves s).all fun m => m == 0) = true) :
    ∀ y x : Fin 4, s 0 y x ≠ 0 := by
  intro y x h0
  have hmem : (1 : Nat) ∈ getValidMoves s := by
    unfold getValidMoves
    refine List.mem_flatMap.mpr ⟨y, List.mem_finRange y, ?_⟩
    refine List.mem_map.mpr ⟨x, List.mem_finRange x, ?_⟩
    rw [if_pos h0]
  have h1 := List.all_eq_true.mp hall 1 hmem
  simp at h1

/-- A board with no empty cell holds 64 pieces. -/
lemma getNumPieces_eq_64 (s : BoardState)
    (hfull : ∀ z y x : Fin 4, s z y x ≠ 0) :
    getNumPieces s = 64 := by
  unfold getNumPieces
  have hself : (allCells s).filter (fun p => p != 0) = allCells s := by
    apply List.filter_eq_self.mpr
    intro a ha
    rcases List.mem_map.mp ha with ⟨t, _, rfl⟩
    simpa using hfull t.1 t.2.1 t.2.2
  rw [hself]
  unfold allCells
  rw [List.length_map]
  decide

/-- Under the gravity invariant the draw branch of
getValueAndTerminated is subsumed by checkGameOver: the reported
isTerminal flag coincides with checkGameOver. -/
lemma terminal_iff_gameOver (s : BoardState) (hg : Gravity s) :
    (getValueAndTerminated s).2 = checkGameOver s := by
  unfold getValueAndTerminated
  by_cases hgo : checkGameOver s = true
  · rw [if_pos hgo, hgo]
  · have hgo' : checkGameOver s = false := by
      cases hcb : checkGameOver s
      · rfl
      · exact absurd hcb hgo
    rw [if_neg hgo]
    by_cases hall : ((getValidMoves s).all fun m => m == 0) = true
    · exfalso
      apply hgo
      have htop := top_occupied_of_all_zero s hall
      have hfull : ∀ z y x : Fin 4, s z y x ≠ 0 := by
        intro z y x hzx
        exact htop y x (hg y x z 0 (Fin.zero_le z) hzx)
      have h64 := getNumPieces_eq_64 s hfull
      unfold checkGameOver
      rw [h64]
      simp
    · rw [if_neg hall, hgo']

/-- One applied step of the replay loop, when the action is in range
and the column's top cell is empty. -/
lemma aux_cons_apply (s : BoardState) (acc : List Int) (a : Int)
    (rest : List Int) (r c : Fin 4)
    (hrange : 0 ≤ a ∧ a < 16)
    (hcoords : _actionToCoords a = some (r, c))
    (htop : s 0 r c = 0) :
    getStateFromMovesAux s acc (a :: rest)
      = if checkGameOver (getNextStateCore s r c)
        then (getNextStateCore s r c, acc ++ [a])
        else getStateFromMovesAux (getNextStateCore s r c) (acc ++ [a]) rest := by
  have htn : a.toNat = 4 * (r : Nat) + (c : Nat) :=
    (actionToCoords_spec a r c hcoords).2.2
  have hnext := getNextState_eq_core s a r c hcoords
  simp only [getStateFromMovesAux]
  rw [if_pos hrange, htn, getValidMoves_getD, if_pos htop,
    if_neg (by norm_num : ¬(1 : Nat) = 0), hnext]

/-- One applied step of the spec-side replay loop in the same case. -/
lemma spec_cons_apply (s : BoardState) (a : Int) (rest : List Int)
    (r c : Fin 4)
    (hcoords : _actionToCoords a = some (r, c))
    (htop : s 0 r c = 0) :
    replaySpecAux s (a :: rest)
      = if (getValueAndTerminated (getNextStateCore s r c)).2 then
          (getNextStateCore s r c, [a])
        else
          ((replaySpecAux (getNextStateCore s r c) rest).1,
            a :: (replaySpecAux (getNextStateCore s r c) rest).2) := by
  have hnotfull : ¬(∀ d : Fin 4, s d r c ≠ 0) := fun hf => hf 0 htop
  simp only [replaySpecAux]
  rw [hcoords]
  dsimp only
  rw [if_neg hnotfull]

/-- Both replay loops stop on a full column. -/
lemma aux_cons_full (s : BoardState) (acc : List Int) (a : Int)
    (rest : List Int) (r c : Fin 4)
    (hrange : 0 ≤ a ∧ a < 16)
    (hcoords : _actionToCoords a = some (r, c))
    (htop : s 0 r c ≠ 0) :
    getStateFromMovesAux s acc (a :: rest) = (s, acc) := by
  have htn : a.toNat = 4 * (r : Nat) + (c : Nat) :=
    (actionToCoords_spec a r c hcoords).2.2
  simp only [getStateFromMovesAux]
  rw [if_pos hrange, htn, getValidMoves_getD, if_neg htop, if_pos rfl]

/-- Both replay loops stop on a full column (spec side, which tests
fullness of the whole column). -/
lemma spec_cons_full (s : BoardState) (a : Int) (rest : List Int)
    (r c : Fin 4)
    (hcoords : _actionToCoords a = some (r, c))
    (hfull : ∀ d : Fin 4, s d r c ≠ 0) :
    replaySpecAux s (a :: rest) = (s, []) := by
  simp only [replaySpecAux]
  rw [hcoords]
  dsimp only
  rw [if_pos hfull]

/-- getStateFromMoves computes exactly the spec-side replay, given the
gravity invariant of the start state. -/
lemma getStateFromMovesAux_eq_spec :
    ∀ (ms : List Int) (s : BoardState) (acc : List Int), Gravity s →
      getStateFromMovesAux s acc ms
        = ((replaySpecAux s ms).1, acc ++ (replaySpecAux s ms).2) := by
  intro ms
  induction ms with
  | nil =>
    intro s acc _
    simp [getStateFromMovesAux, replaySpecAux]
  | cons a rest ih =>
    intro s acc hg
    by_cases hrange : 0 ≤ a ∧ a < 16
    · obtain ⟨r, c, hcoords⟩ := actionToCoords_isSome a hrange
      by_cases htop : s 0 r c = 0
      · have hg' : Gravity (getNextStateCore s r c) := gravity_core s r c hg
        have hterm := terminal_iff_gameOver (getNextStateCore s r c) hg'
        rw [aux_cons_apply s acc a rest r c hrange hcoords htop,
          spec_cons_apply s a rest r c hcoords htop, hterm]
        by_cases hgo : checkGameOver (getNextStateCore s r c) = true
        · rw [if_pos hgo, if_pos hgo]
        · have hgo' : checkGameOver (getNextStateCore s r c) = false := by
            cases hcb : checkGameOver (getNextStateCore s r c)
            · rfl
            · exact absurd hcb hgo
          rw [hgo', if_neg (by simp), if_neg (by simp),
            ih (getNextStateCore s r c) (acc ++ [a]) hg']
          simp
      · have hfull : ∀ d : Fin 4, s d r c ≠ 0 := fun d hd =>
          htop (hg r c d 0 (Fin.zero_le d) hd)
        rw [aux_cons_full s acc a rest r c hrange hcoords htop,
          spec_cons_full s a rest r c hcoords hfull]
        simp
    · have hnone := actionToCoords_none a hrange
      have haux : getStateFromMovesAux s acc (a :: rest) = (s, acc) := by
        simp only [getStateFromMovesAux]
        rw [if_neg hrange]
      have hspec : replaySpecAux s (a :: rest) = (s, []) := by
        simp only [replaySpecAux]
        rw [hnone]
      rw [haux, hspec]
      simp

/-- The moves reported by the replay loop, extended by some remainder,
give back the input: the applied moves form a left part of the input
list. -/
lemma getStateFromMovesAux_applied :
    ∀ (ms : List Int) (s : BoardState) (acc : List Int),
      ∃ rest, (getStateFromMovesAux s acc ms).2 ++ rest = acc ++ ms := by
  intro ms
  induction ms with
  | nil =>
    intro s acc
    exact ⟨[], by simp [getStateFromMovesAux]⟩
  | cons a rest ih =>
    intro s acc
    by_cases hrange : 0 ≤ a ∧ a < 16
    · by_cases hgd : (getValidMoves s).getD a.toNat 0 = 0
      · refine ⟨a :: rest, ?_⟩
        simp only [getStateFromMovesAux]
        rw [if_pos hrange, if_pos hgd]
      · obtain ⟨r, c, hcoords⟩ := actionToCoords_isSome a hrange
        have hnext := getNextState_eq_core s a r c hcoords
        by_cases hgo : checkGameOver (getNextStateCore s r c) = true
        · refine ⟨rest, ?_⟩
          simp only [getStateFromMovesAux]
          rw [if_pos hrange, if_neg hgd, hnext]
          dsimp only
          rw [if_pos hgo]
          simp
        · obtain ⟨tail, htail⟩ := ih (getNextStateCore s r c) (acc ++ [a])
          refine ⟨tail, ?_⟩
          simp only [getStateFromMovesAux]
          rw [if_pos hrange, if_neg hgd, hnext]
          dsimp only
          rw [if_neg hgo, htail]
          simp
    · refine ⟨a :: rest, ?_⟩
      simp only [getStateFromMovesAux]
      rw [if_neg hrange]

set_option maxHeartbeats 2000000 in
/-- Claim C5: getStateFromMoves replays from the initial state exactly
as the specification describes (stopping at the first out-of-range
action or full column and after any terminal state), always returns a
left part of the input as the applied moves, and on [5, 20, 3] applies
exactly [5], leaving one piece on the board. -/
theorem c5_replay_behaviour :
    (∀ moves : List Int, getStateFromMoves moves = replaySpec moves) ∧
    (∀ moves : List Int, ∃ rest : List Int,
      (getStateFromMoves moves).2 ++ rest = moves) ∧
    (getStateFromMoves [5, 20, 3]).2 = [5] ∧
    getNumPieces (getStateFromMoves [5, 20, 3]).1 = 1 := by
  have hg0 : Gravity getInitialState := by
    intro r c d d' _ _
    rfl
  refine ⟨?_, ?_, by decide, by decide⟩
  · intro moves
    unfold getStateFromMoves replaySpec
    rw [getStateFromMovesAux_eq_spec moves getInitialState [] hg0]
    simp
  · intro moves
    obtain ⟨rest, h⟩ := getStateFromMovesAux_applied moves getInitialState []
    exact ⟨rest, by simpa [getStateFromMoves] using h⟩

/-! ## Landing position -/

/-- Claim C6: getLandingPosition answers none exactly for an
out-of-range action or a column whose top cell is occupied, and
otherwise returns the slot that getNextState would fill, without
touching the state. -/
theorem c6_landing_position (s : BoardState) (a : Int) :
    (getLandingPosition s a = none ↔
      ¬(0 ≤ a ∧ a < 16) ∨
        ∃ r c : Fin 4, _actionToCoords a = some (r, c) ∧ s 0 r c ≠ 0) ∧
    ∀ d r c : Fin 4, getLandingPosition s a = some (d, r, c) →
      _actionToCoords a = some (r, c) ∧ s d r c = 0 ∧
      (∀ d' : Fin 4, d < d' → s d' r c ≠ 0) ∧
      getNextState s a = some (pointUpdate s d r c (getCurrentPlayer s)) := by
  by_cases hrange : 0 ≤ a ∧ a < 16
  · obtain ⟨r₀, c₀, hcoords⟩ := actionToCoords_isSome a hrange
    have htn : a.toNat = 4 * (r₀ : Nat) + (c₀ : Nat) :=
      (actionToCoords_spec a r₀ c₀ hcoords).2.2
    by_cases htop : s 0 r₀ c₀ = 0
    · rcases dropDepth_cases s r₀ c₀ with ⟨_, hall⟩ | ⟨d₀, hfind, hemp, hmax⟩
      · exact absurd htop (hall 0)
      · have hgd : (getValidMoves s).getD a.toNat 0 = 1 := by
          rw [htn, getValidMoves_getD, if_pos htop]
        have hland : getLandingPosition s a = some (d₀, r₀, c₀) := by
          unfold getLandingPosition
          rw [if_neg (by
            rintro (hn | h0)
            · exact hn hrange
            · rw [hgd] at h0
              norm_num at h0), hcoords]
          dsimp only
          rw [hfind]
          rfl
        constructor
        · constructor
          · intro hn
            rw [hland] at hn
            exact absurd hn (by simp)
          · rintro (hn | ⟨r', c', hc', hne⟩)
            · exact absurd hrange hn
            · rw [hcoords] at hc'
              have e := Option.some.inj hc'
              rw [Prod.mk.injEq] at e
              exfalso
              apply hne
              rw [← e.1, ← e.2]
              exact htop
        · intro d r c hsome
          rw [hland] at hsome
          simp only [Option.some.injEq, Prod.mk.injEq] at hsome
          obtain ⟨ed, er, ec⟩ := hsome
          subst ed
          subst er
          subst ec
          refine ⟨hcoords, hemp, hmax, ?_⟩
          rw [getNextState_eq_core s a r₀ c₀ hcoords]
          unfold getNextStateCore
          rw [hfind]
    · have hgd : (getValidMoves s).getD a.toNat 0 = 0 := by
        rw [htn, getValidMoves_getD, if_neg htop]
      have hland : getLandingPosition s a = none := by
        unfold getLandingPosition
        rw [if_pos (Or.inr hgd)]
      refine ⟨⟨fun _ => Or.inr ⟨r₀, c₀, hcoords, htop⟩, fun _ => hland⟩, ?_⟩
      intro d r c hsome
      rw [hland] at hsome
      exact absurd hsome (by simp)
  · have hland : getLandingPosition s a = none := by
      unfold getLandingPosition
      rw [if_pos (Or.inl hrange)]
    refine ⟨⟨fun _ => Or.inl hrange, fun _ => hland⟩, ?_⟩
    intro d r c hsome
    rw [hland] at hsome
    exact absurd hsome (by simp)

/-- Witness for C6: an out-of-range action and a full column both
answer none, and on the empty board column 0 lands at depth 3 — the
same slot getNextState fills. -/
theorem c6_landing_position_witness :
    getLandingPosition getInitialState 20 = none ∧
    getLandingPosition colFullBoard 0 = none ∧
    (_actionToCoords 0 = some (0, 0) ∧ getInitialState 3 0 0 = 0 ∧
      (∀ d' : Fin 4, 3 < d' → getInitialState d' 0 0 ≠ 0) ∧
      getNextState getInitialState 0
        = some (pointUpdate getInitialState 3 0 0 (getCurrentPlayer getInitialState))) :=
  ⟨(c6_landing_position getInitialState 20).1.mpr (Or.inl (by decide)),
   (c6_landing_position colFullBoard 0).1.mpr
     (Or.inr ⟨0, 0, by decide, by decide⟩),
   (c6_landing_position getInitialState 0).2 3 0 0 (by decide)⟩

/-! ## Hex serialization -/

/-- Appending one digit multiplies the value by 16 and adds the
digit. -/
lemma hexVal_append (l : List Char) (ch : Char) :
    hexVal (l ++ [ch]) = 16 * hexVal l + hexDigitVal ch := by
  unfold hexVal
  rw [List.foldl_append]
  rfl

/-- Reading back a digit character gives the digit. -/
lemma hexDigit_roundtrip : ∀ d, d < 16 → hexDigitVal (hexDigitChar d) = d := by
  decide

/-- Digit characters are lowercase hexadecimal characters. -/
lemma hexDigit_mem : ∀ d, d < 16 → hexDigitChar d ∈ hexChars := by decide

/-- The digit expansion evaluates back to its argument. -/
lemma natToHexAux_val : ∀ n, hexVal (natToHexAux n) = n := by
  intro n
  induction n using Nat.strong_induction_on with
  | _ n ih =>
    rw [natToHexAux]
    split
    · next h =>
      rw [h]
      rfl
    · next h =>
      rw [hexVal_append,
        ih (n / 16) (Nat.div_lt_self (Nat.pos_of_ne_zero h) (by norm_num)),
        hexDigit_roundtrip (n % 16) (Nat.mod_lt _ (by norm_num))]
      omega

/-- The digit expansion of a number below 16^k has at most k digits. -/
lemma natToHexAux_le : ∀ (k n : Nat), n < 16 ^ k → (natToHexAux n).length ≤ k := by
  intro k
  induction k with
  | zero =>
    intro n h
    have h0 : n = 0 := by
      simpa using Nat.lt_one_iff.mp (by simpa using h)
    rw [natToHexAux, dif_pos h0]
    simp
  | succ k ih =>
    intro n h
    rw [natToHexAux]
    split
    · simp
    · next hne =>
      rw [List.length_append]
      have hdiv : n / 16 < 16 ^ k := by
        rw [Nat.div_lt_iff_lt_mul (by norm_num : 0 < 16)]
        calc n < 16 ^ (k + 1) := h
          _ = 16 ^ k * 16 := by ring
      have := ih (n / 16) hdiv
      simp only [List.length_singleton]
      omega

/-- Every character of the digit expansion is a hexadecimal digit. -/
lemma natToHexAux_mem : ∀ n, ∀ ch ∈ natToHexAux n, ch ∈ hexChars := by
  intro n
  induction n using Nat.strong_induction_on with
  | _ n ih =>
    intro ch hch
    rw [natToHexAux] at hch
    split at hch
    · simp at hch
    · next h =>
      rcases List.mem_append.mp hch with h1 | h2
      · exact ih (n / 16) (Nat.div_lt_self (Nat.pos_of_ne_zero h) (by norm_num)) ch h1
      · have he : ch = hexDigitChar (n % 16) := by simpa using h2
        rw [he]
        exact hexDigit_mem (n % 16) (Nat.mod_lt _ (by norm_num))

/-- toString(16) evaluates back to its argument. -/
lemma natToHex_val (n : Nat) : hexVal (natToHex n) = n := by
  unfold natToHex
  split
  · next h =>
    rw [h]
    rfl
  · exact natToHexAux_val n

/-- toString(16) of a 64-bit value has at most 16 digits. -/
lemma natToHex_le16 (n : Nat) (h : n < 2 ^ 64) : (natToHex n).length ≤ 16 := by
  unfold natToHex
  split
  · simp
  · refine natToHexAux_le 16 n ?_
    calc n < 2 ^ 64 := h
      _ = 16 ^ 16 := by norm_num

/-- toString(16) produces hexadecimal characters only. -/
lemma natToHex_mem (n : Nat) : ∀ ch ∈ natToHex n, ch ∈ hexChars := by
  unfold natToHex
  split
  · intro ch hch
    have he : ch = '0' := by simpa using hch
    rw [he]
    decide
  · exact natToHexAux_mem n

/-- Padding with at most 16 target length yields exactly 16
characters. -/
lemma padStart16_length (l : List Char) (h : l.length ≤ 16) :
    (padStart16 l).length = 16 := by
  unfold padStart16
  rw [List.length_append, List.length_replicate]
  omega

/-- Leading zero characters do not change the value. -/
lemma foldl_hex_replicate_zero :
    ∀ k, List.foldl (fun acc ch => 16 * acc + hexDigitVal ch) 0
      (List.replicate k '0') = 0 := by
  intro k
  induction k with
  | zero => rfl
  | succ k ih =>
    rw [List.replicate_succ, List.foldl_cons]
    have hstep : 16 * 0 + hexDigitVal '0' = 0 := rfl
    rw [hstep]
    exact ih

/-- Padding does not change the value. -/
lemma padStart16_val (l : List Char) : hexVal (padStart16 l) = hexVal l := by
  unfold padStart16 hexVal
  rw [List.foldl_append, foldl_hex_replicate_zero]

/-- Padding preserves hexadecimal characters. -/
lemma padStart16_mem (l : List Char) (hl : ∀ ch ∈ l, ch ∈ hexChars) :
    ∀ ch ∈ padStart16 l, ch ∈ hexChars := by
  intro ch hch
  rcases List.mem_append.mp hch with h1 | h2
  · have he : ch = '0' := List.eq_of_mem_replicate h1
    rw [he]
    decide
  · exact hl ch h2

/-- A fold that only ors in single bits preserves any 2^64 bound that
each step preserves. -/
lemma foldl_or_bound (f : Nat → (Fin 4 × Fin 4 × Fin 4) → Nat)
    (hf : ∀ acc t, acc < 2 ^ 64 → f acc t < 2 ^ 64) :
    ∀ (l : List (Fin 4 × Fin 4 × Fin 4)) (acc : Nat), acc < 2 ^ 64 →
      l.foldl f acc < 2 ^ 64 := by
  intro l
  induction l with
  | nil =>
    intro acc h
    simpa using h
  | cons t ts ih =>
    intro acc h
    rw [List.foldl_cons]
    exact ih _ (hf acc t h)

/-- The flipped bitboard is a 64-bit value. -/
lemma createBitboardFlipped_lt (s : BoardState) (v : Cell) :
    _createBitboardFlipped s v < 2 ^ 64 := by
  unfold _createBitboardFlipped
  refine foldl_or_bound _ ?_ coords 0 (by norm_num)
  intro acc t hacc
  split
  · refine Nat.or_lt_two_pow hacc ?_
    rw [Nat.shiftLeft_eq, one_mul]
    refine Nat.pow_lt_pow_right (by norm_num) ?_
    have h1 := t.1.isLt
    have h2 := t.2.1.isLt
    have h3 := t.2.2.isLt
    omega
  · exact hacc

/-- A shifted single bit tests true exactly at its position. -/
lemma testBit_shift_one (p k : Nat) : (1 <<< p).testBit k = (p == k) := by
  rw [Nat.shiftLeft_eq, one_mul]
  by_cases h : p = k
  · subst h
    simp [Nat.testBit_two_pow_self]
  · rw [Nat.testBit_two_pow_of_ne h]
    exact (beq_eq_false_iff_ne.mpr h).symm

/-- Bit k of an or-accumulating fold: set when already set in the
accumulator or contributed by some selected element at position k. -/
lemma testBit_bb_foldl (P : Fin 4 × Fin 4 × Fin 4 → Prop) [DecidablePred P]
    (posf : Fin 4 × Fin 4 × Fin 4 → Nat) :
    ∀ (l : List (Fin 4 × Fin 4 × Fin 4)) (acc : Nat) (k : Nat),
      (l.foldl (fun bb t => if P t then bb ||| (1 <<< posf t) else bb) acc).testBit k
        = (acc.testBit k || l.any fun t => decide (P t) && (posf t == k)) := by
  intro l
  induction l with
  | nil =>
    intro acc k
    simp
  | cons t ts ih =>
    intro acc k
    rw [List.foldl_cons]
    by_cases hP : P t
    · rw [if_pos hP, ih, Nat.testBit_or, testBit_shift_one]
      simp [hP, Bool.or_assoc]
    · rw [if_neg hP, ih]
      simp [hP]

set_option maxRecDepth 8192 in
/-- Every lattice coordinate is in the flattening order. -/
lemma coords_complete : ∀ t : Fin 4 × Fin 4 × Fin 4, t ∈ coords := by decide

set_option maxRecDepth 32768 in
/-- The depth-flipped position formula is injective on the lattice. -/
lemma flipPos_inj : ∀ t u : Fin 4 × Fin 4 × Fin 4,
    (3 - (t.1 : Nat)) * 16 + (t.2.1 : Nat) * 4 + (t.2.2 : Nat)
      = (3 - (u.1 : Nat)) * 16 + (u.2.1 : Nat) * 4 + (u.2.2 : Nat) → t = u := by
  decide

/-- Bit-exactness of the flipped bitboard: bit (3-z)*16 + y*4 + x is
set exactly when cell (z, y, x) holds the given player. -/
lemma testBit_createBitboardFlipped (s : BoardState) (v : Cell) (z y x : Fin 4) :
    (_createBitboardFlipped s v).testBit
        ((3 - (z : Nat)) * 16 + (y : Nat) * 4 + (x : Nat))
      = (s z y x == v) := by
  unfold _createBitboardFlipped
  rw [testBit_bb_foldl (fun t => s t.1 t.2.1 t.2.2 = v)
    (fun t => (3 - (t.1 : Nat)) * 16 + (t.2.1 : Nat) * 4 + (t.2.2 : Nat))
    coords 0 ((3 - (z : Nat)) * 16 + (y : Nat) * 4 + (x : Nat))]
  simp only [Nat.zero_testBit, Bool.false_or]
  by_cases hv : s z y x = v
  · have hany : (coords.any fun t => decide (s t.1 t.2.1 t.2.2 = v) &&
        ((3 - (t.1 : Nat)) * 16 + (t.2.1 : Nat) * 4 + (t.2.2 : Nat)
          == (3 - (z : Nat)) * 16 + (y : Nat) * 4 + (x : Nat))) = true := by
      refine List.any_eq_true.mpr ⟨(z, y, x), coords_complete _, ?_⟩
      simp [hv]
    rw [hany]
    simp [hv]
  · have hany : (coords.any fun t => decide (s t.1 t.2.1 t.2.2 = v) &&
        ((3 - (t.1 : Nat)) * 16 + (t.2.1 : Nat) * 4 + (t.2.2 : Nat)
          == (3 - (z : Nat)) * 16 + (y : Nat) * 4 + (x : Nat))) = false := by
      refine List.any_eq_false.mpr ?_
      intro t ht hcond
      rw [Bool.and_eq_true] at hcond
      have hP : s t.1 t.2.1 t.2.2 = v := by simpa using hcond.1
      have hpos : (3 - (t.1 : Nat)) * 16 + (t.2.1 : Nat) * 4 + (t.2.2 : Nat)
          = (3 - (z : Nat)) * 16 + (y : Nat) * 4 + (x : Nat) := by
        simpa using hcond.2
      have hte : t = (z, y, x) := flipPos_inj t (z, y, x) hpos
      rw [hte] at hP
      exact hv hP
    rw [hany]
    simp [hv]

/-- Claim C7: getStateHexCode is two 16-character strings of lowercase
hexadecimal digits joined by a single space, decoding exactly to the
depth-flipped bitboards of player one and player two respectively:
bit (3-depth)*16 + row*4 + col of each half is set exactly when the
corresponding cell holds that player. -/
theorem c7_hex_code (s : BoardState) :
    ∃ l1 l2 : List Char,
      getStateHexCode s = String.mk l1 ++ " " ++ String.mk l2 ∧
      l1.length = 16 ∧ l2.length = 16 ∧
      (∀ ch ∈ l1, ch ∈ hexChars) ∧ (∀ ch ∈ l2, ch ∈ hexChars) ∧
      hexVal l1 = _createBitboardFlipped s 1 ∧
      hexVal l2 = _createBitboardFlipped s (-1) ∧
      (∀ z y x : Fin 4, (hexVal l1).testBit
        ((3 - (z : Nat)) * 16 + (y : Nat) * 4 + (x : Nat)) = (s z y x == 1)) ∧
      (∀ z y x : Fin 4, (hexVal l2).testBit
        ((3 - (z : Nat)) * 16 + (y : Nat) * 4 + (x : Nat)) = (s z y x == -1)) := by
  refine ⟨padStart16 (natToHex (_createBitboardFlipped s 1)),
          padStart16 (natToHex (_createBitboardFlipped s (-1))),
          rfl, ?_, ?_, ?_, ?_, ?_, ?_, ?_, ?_⟩
  · exact padStart16_length _ (natToHex_le16 _ (createBitboardFlipped_lt s 1))
  · exact padStart16_length _ (natToHex_le16 _ (createBitboardFlipped_lt s (-1)))
  · exact padStart16_mem _ (natToHex_mem _)
  · exact padStart16_mem _ (natToHex_mem _)
  · rw [padStart16_val, natToHex_val]
  · rw [padStart16_val, natToHex_val]
  · intro z y x
    rw [padStart16_val, natToHex_val]
    exact testBit_createBitboardFlipped s 1 z y x
  · intro z y x
    rw [padStart16_val, natToHex_val]
    exact testBit_createBitboardFlipped s (-1) z y x

/-- Witness for C7 on the one-piece board board1: the piece placed at
depth 3 of column 0 appears as bit 0 of player one's half. -/
theorem c7_hex_code_witness :
    ∃ l1 l2 : List Char,
      getStateHexCode board1 = String.mk l1 ++ " " ++ String.mk l2 ∧
      l1.length = 16 ∧ l2.length = 16 ∧
      (∀ ch ∈ l1, ch ∈ hexChars) ∧ (∀ ch ∈ l2, ch ∈ hexChars) ∧
      hexVal l1 = _createBitboardFlipped board1 1 ∧
      hexVal l2 = _createBitboardFlipped board1 (-1) ∧
      (∀ z y x : Fin 4, (hexVal l1).testBit
        ((3 - (z : Nat)) * 16 + (y : Nat) * 4 + (x : Nat)) = (board1 z y x == 1)) ∧
      (∀ z y x : Fin 4, (hexVal l2).testBit
        ((3 - (z : Nat)) * 16 + (y : Nat) * 4 + (x : Nat)) = (board1 z y x == -1)) :=
  c7_hex_code board1

end ConnectFour3D
